import Mathlib

/-!
Marching squares with barrier-synchronised workers (`tema1_par.c`).

A shallow embedding of the worker function `f`, of `update_image` and of the
set-up done by `main`, followed by the properties proved about them.

Conventions of the embedding.

* `int` values are natural numbers.  Every index the program computes is
  bounded by the pixel count of the working image, which `main` keeps at
  most `2048 * 2048`, so no `int` computation wraps.
* `double` values are IEEE-754 binary64 numbers with the default rounding
  (to nearest, ties to even).  Only non-negative values occur; they are
  represented exactly, as dyadic rationals.
* A buffer (`image->data`, `grid`) is a total function from indices to
  values.  Whether an index lies inside the allocated buffer is a separate
  statement about the index.
* The workers of one barrier epoch are run one after the other, in the order
  given by a schedule (a list of thread ids).
-/

namespace MarchingSquares

/-! ## Constants -/

/-- The number of contour tiles, `CONTOUR_CONFIG_COUNT`. -/
def CONTOUR_CONFIG_COUNT : Nat := 16

/-- The grid step in pixels, `STEP`. -/
def STEP : Nat := 8

/-- The luminance threshold, `SIGMA`. -/
def SIGMA : Nat := 200

/-- The maximum number of image rows before resampling, `RESCALE_X`. -/
def RESCALE_X : Nat := 2048

/-- The maximum number of image columns before resampling, `RESCALE_Y`. -/
def RESCALE_Y : Nat := 2048

/-! ## Binary64 arithmetic on non-negative values -/

/-- A finite non-negative `double`: the dyadic rational `man / 2 ^ sh`. -/
structure Dbl where
  man : Nat
  sh : Nat
deriving DecidableEq

/-- The quotient `n / d` rounded to the nearest integer, a tie going to the
even neighbour. -/
def roundNearestEven (n d : Nat) : Nat :=
  let q := n / d
  let r := n % d
  if 2 * r < d then q
  else if d < 2 * r then q + 1
  else if q % 2 = 0 then q else q + 1

/-- The least shift `s`, searched upwards from the second argument, with
`2 ^ 52 ≤ n * 2 ^ s / d`: the scaling that leaves a 53-bit significand. -/
def normShift (n d : Nat) : Nat → Nat → Nat
  | 0, s => s
  | fuel + 1, s => if d * 2 ^ 52 ≤ n * 2 ^ s then s else normShift n d fuel (s + 1)

/-- The binary64 number nearest to the rational `n / d` (ties to even), for
`n / d` zero or in the normal range below `2 ^ 53`: the significand is
`n * 2 ^ s / d` rounded to an integer of 53 bits. -/
def Dbl.round (n d : Nat) : Dbl :=
  if n = 0 then ⟨0, 0⟩
  else
    let s := normShift n d 1074 0
    ⟨roundNearestEven (n * 2 ^ s) d, s⟩

/-- The conversion `(double)n` of an `int`, which is exact. -/
def Dbl.ofInt (n : Nat) : Dbl := ⟨n, 0⟩

/-- The `double` quotient `a / b` for `b` not zero, correctly rounded. -/
def Dbl.div (a b : Dbl) : Dbl :=
  Dbl.round (a.man * 2 ^ b.sh) (b.man * 2 ^ a.sh)

/-- The `double` product `a * b`, correctly rounded. -/
def Dbl.mul (a b : Dbl) : Dbl :=
  Dbl.round (a.man * b.man) (2 ^ (a.sh + b.sh))

/-- The comparison `a < b` of two `double`s, which is exact. -/
def Dbl.lt (a b : Dbl) : Bool :=
  decide (a.man * 2 ^ b.sh < b.man * 2 ^ a.sh)

/-- The conversion of a `double` to `int`: truncation towards zero. -/
def Dbl.toInt (a : Dbl) : Nat := a.man / 2 ^ a.sh

/-! ## The work partition of `f` -/

/-- The lower bound of a worker's range,
`start = thread_id * ((double)N / P)` (lines 115, 146, 200). -/
def range_start (N P thread_id : Nat) : Nat :=
  (Dbl.mul (Dbl.ofInt thread_id) (Dbl.div (Dbl.ofInt N) (Dbl.ofInt P))).toInt

/-- The upper bound of a worker's range: `end = N;
if ((thread_id + 1) * ((double)N / P) < end) end = (thread_id + 1) * ((double)N / P);`
(lines 116-117, 147-148, 201-202). -/
def range_end (N P thread_id : Nat) : Nat :=
  let v := Dbl.mul (Dbl.ofInt (thread_id + 1)) (Dbl.div (Dbl.ofInt N) (Dbl.ofInt P))
  if Dbl.lt v (Dbl.ofInt N) then v.toInt else N

/-! ## Data model -/

/-- Modelled from the spec: the pixel type `ppm_pixel` declared in
`helpers.h`, an ordered triple of 8-bit channel values. -/
structure ppm_pixel where
  red : Fin 256
  green : Fin 256
  blue : Fin 256
deriving DecidableEq

/-- Modelled from the spec: the image type `ppm_image` declared in
`helpers.h`, with dimensions `x` and `y` and a row-major pixel sequence.  The
program addresses pixel `(i, j)`, `i < x` and `j < y`, at `data[i * y + j]`. -/
structure ppm_image where
  x : Nat
  y : Nat
  data : Nat → ppm_pixel

/-- The occupancy grid `unsigned char **grid`; `g i j` is `grid[i][j]`. -/
abbrev Grid := Nat → Nat → Nat

/-- The assignment `grid[i][j] = v`. -/
def Grid.set (g : Grid) (i j v : Nat) : Grid :=
  fun a b => if a = i ∧ b = j then v else g a b

/-- The assignment `data[k].red = v`. -/
def set_red (d : Nat → ppm_pixel) (k : Nat) (v : Fin 256) : Nat → ppm_pixel :=
  fun n => if n = k then { d n with red := v } else d n

/-- The assignment `data[k].green = v`. -/
def set_green (d : Nat → ppm_pixel) (k : Nat) (v : Fin 256) : Nat → ppm_pixel :=
  fun n => if n = k then { d n with green := v } else d n

/-- The assignment `data[k].blue = v`. -/
def set_blue (d : Nat → ppm_pixel) (k : Nat) (v : Fin 256) : Nat → ppm_pixel :=
  fun n => if n = k then { d n with blue := v } else d n

/-! ## Loops -/

/-- The iterations `i, i + 1, ..., i + n - 1` of a loop body, in order. -/
def loopFrom {σ : Type} (body : Nat → σ → σ) : Nat → Nat → σ → σ
  | _, 0, s => s
  | i, n + 1, s => loopFrom body (i + 1) n (body i s)

/-- The loop `for (int i = lo; i < hi; i++) body`. -/
def forRange {σ : Type} (lo hi : Nat) (body : Nat → σ → σ) (s : σ) : σ :=
  loopFrom body lo (hi - lo) s

/-- The work of the threads of `schedule`, one after the other, within one
barrier epoch. -/
def run_epoch {σ : Type} (schedule : List Nat) (work : Nat → σ → σ) (s : σ) : σ :=
  schedule.foldl (fun acc thread_id => work thread_id acc) s

/-! ## `update_image` -/

/-- The body of the inner loop of `update_image` (lines 43-48). -/
def update_pixel (contour : ppm_image) (x y i j : Nat) (image : ppm_image) : ppm_image :=
  let contour_pixel_index := contour.x * i + j
  let image_pixel_index := (x + i) * image.y + y + j
  let d1 := set_red image.data image_pixel_index (contour.data contour_pixel_index).red
  let d2 := set_green d1 image_pixel_index (contour.data contour_pixel_index).green
  let d3 := set_blue d2 image_pixel_index (contour.data contour_pixel_index).blue
  { image with data := d3 }

/-- The function `update_image` (lines 40-51). -/
def update_image (image contour : ppm_image) (x y : Nat) : ppm_image :=
  forRange 0 contour.x
    (fun i img => forRange 0 contour.y (fun j img2 => update_pixel contour x y i j img2) img)
    image

/-! ## The phases of the worker function `f` -/

/-- The value `(red + green + blue) / 3` stored in an `unsigned char`
(lines 154, 177, 178). -/
def curr_color (curr_pixel : ppm_pixel) : Nat :=
  ((curr_pixel.red.val + curr_pixel.green.val + curr_pixel.blue.val) / 3) % 256

/-- The body of the sampling loop (lines 152-160). -/
def sample_step (scaled_image : ppm_image) (i j : Nat) (grid : Grid) : Grid :=
  let curr_pixel := scaled_image.data (i * STEP * scaled_image.y + j * STEP)
  if curr_color curr_pixel > SIGMA then grid.set i j 0 else grid.set i j 1

/-- The sampling loop of one worker followed by the corner write of thread 0
(lines 143-167). -/
def f_sample_grid (scaled_image : ppm_image) (P thread_id : Nat) (grid : Grid) : Grid :=
  let p_grid := scaled_image.x / STEP
  let q_grid := scaled_image.y / STEP
  let start := range_start p_grid P thread_id
  let stop := range_end p_grid P thread_id
  let grid1 := forRange start stop
    (fun i g => forRange 0 q_grid (fun j g2 => sample_step scaled_image i j g2) g) grid
  if thread_id = 0 then grid1.set p_grid q_grid 0 else grid1

/-- The body of the fix-up loop (lines 174-190). -/
def fixup_step (scaled_image : ppm_image) (i : Nat) (grid : Grid) : Grid :=
  let p_grid := scaled_image.x / STEP
  let q_grid := scaled_image.y / STEP
  let curr_pixel := scaled_image.data (i * STEP * scaled_image.y + scaled_image.x - 1)
  let curr_pixel_j := scaled_image.data ((scaled_image.x - 1) * scaled_image.y + i * STEP)
  let grid1 := if curr_color curr_pixel > SIGMA then grid.set i q_grid 0 else grid.set i q_grid 1
  if curr_color curr_pixel_j > SIGMA then grid1.set p_grid i 0 else grid1.set p_grid i 1

/-- The fix-up loop of one worker (lines 173-191); `start` and `end` are those
of the sampling loop. -/
def f_fixup (scaled_image : ppm_image) (P thread_id : Nat) (grid : Grid) : Grid :=
  let p_grid := scaled_image.x / STEP
  let start := range_start p_grid P thread_id
  let stop := range_end p_grid P thread_id
  forRange start stop (fun i g => fixup_step scaled_image i g) grid

/-- The configuration code `unsigned char k` of cell `(i, j)` (line 206). -/
def march_code (grid : Grid) (i j : Nat) : Nat :=
  (8 * grid i j + 4 * grid i (j + 1) + 2 * grid (i + 1) (j + 1) + 1 * grid (i + 1) j) % 256

/-- The body of the march loop (lines 206-207). -/
def march_step (contour_map : Nat → ppm_image) (grid : Grid) (i j : Nat)
    (scaled_image : ppm_image) : ppm_image :=
  let k := march_code grid i j
  update_image scaled_image (contour_map k) (i * STEP) (j * STEP)

/-- The march loop of one worker (lines 197-209). -/
def f_march (contour_map : Nat → ppm_image) (grid : Grid) (P thread_id : Nat)
    (scaled_image : ppm_image) : ppm_image :=
  let p := scaled_image.x / STEP
  let q := scaled_image.y / STEP
  let start := range_start p P thread_id
  let stop := range_end p P thread_id
  forRange start stop
    (fun i img => forRange 0 q (fun j img2 => march_step contour_map grid i j img2) img)
    scaled_image

/-- Grid construction by `P` workers: every worker runs the sampling loop and
thread 0 the corner write, all wait at the barrier of line 169, every worker
runs the fix-up loop, all wait at the barrier of line 193. -/
def grid_construction (scaled_image : ppm_image) (P : Nat) (grid : Grid) : Grid :=
  run_epoch (List.range P) (f_fixup scaled_image P)
    (run_epoch (List.range P) (f_sample_grid scaled_image P) grid)

/-- The march phase run by `P` workers (between the barriers of lines 193 and
211). -/
def march (contour_map : Nat → ppm_image) (grid : Grid) (P : Nat)
    (scaled_image : ppm_image) : ppm_image :=
  run_epoch (List.range P) (f_march contour_map grid P) scaled_image


/-! ## Control flow of `f` and the set-up of `main` -/

/-- The steps a worker takes in `f`, in program order. -/
inductive Step where
  | rescale_loop
  | barrier_wait
  | free_image
  | sample_loop
  | corner_write
  | fixup_loop
  | march_loop
  | write_ppm
  | free_resources
deriving DecidableEq

/-- The sequence of steps of `f` (lines 114-219) for a worker with the given
`ok` flag and thread id. -/
def f_steps (ok thread_id : Nat) : List Step :=
  (if ok = 0 then
      [Step.rescale_loop, Step.barrier_wait] ++
        (if thread_id = 0 then [Step.free_image] else [])
    else []) ++
  [Step.sample_loop] ++
  (if thread_id = 0 then [Step.corner_write] else []) ++
  [Step.barrier_wait, Step.fixup_loop, Step.barrier_wait, Step.march_loop,
    Step.barrier_wait, Step.write_ppm, Step.barrier_wait] ++
  (if thread_id = 0 then [Step.free_resources] else [])

/-- The choice of the working image in `main` (lines 247-274): the pair of
`scaled_image` and `ok`.  `fresh` is the content of the newly allocated
buffer. -/
def main_scaled_image (image : ppm_image) (fresh : Nat → ppm_pixel) : ppm_image × Nat :=
  if image.x ≤ RESCALE_X ∧ image.y ≤ RESCALE_Y then (image, 1)
  else ({ x := RESCALE_X, y := RESCALE_Y, data := fresh }, 0)

/-! ## The grid cells written during grid construction -/

/-- The cells `(i, j)` assigned by one worker in the sampling loop and the
corner write (lines 150-167), in program order. -/
def f_sample_grid_writes (scaled_image : ppm_image) (P thread_id : Nat) : List (Nat × Nat) :=
  let p_grid := scaled_image.x / STEP
  let q_grid := scaled_image.y / STEP
  let start := range_start p_grid P thread_id
  let stop := range_end p_grid P thread_id
  let w := forRange start stop
    (fun i l => forRange 0 q_grid (fun j l2 => l2 ++ [(i, j)]) l) []
  if thread_id = 0 then w ++ [(p_grid, q_grid)] else w

/-- The cells assigned by one worker in the fix-up loop (lines 173-191), in
program order. -/
def f_fixup_writes (scaled_image : ppm_image) (P thread_id : Nat) : List (Nat × Nat) :=
  let p_grid := scaled_image.x / STEP
  let q_grid := scaled_image.y / STEP
  let start := range_start p_grid P thread_id
  let stop := range_end p_grid P thread_id
  forRange start stop (fun i l => l ++ [(i, q_grid), (p_grid, i)]) []

/-- Every grid assignment made before the march phase, as triples of thread
id, row and column. -/
def grid_writes (scaled_image : ppm_image) (P : Nat) : List (Nat × Nat × Nat) :=
  (List.range P).flatMap
      (fun t => (f_sample_grid_writes scaled_image P t).map (fun c => (t, c.1, c.2))) ++
    (List.range P).flatMap
      (fun t => (f_fixup_writes scaled_image P t).map (fun c => (t, c.1, c.2)))

/-- The number of assignments to `grid[i][j]` before the march phase. -/
def write_count (scaled_image : ppm_image) (P i j : Nat) : Nat :=
  ((grid_writes scaled_image P).filter (fun w => decide (w.2.1 = i ∧ w.2.2 = j))).length

/-! ## Closed forms used in the proofs -/

/-- The cell value the threshold rule gives a pixel: `0` above `SIGMA`,
`1` otherwise. -/
def threshold_bit (curr_pixel : ppm_pixel) : Nat :=
  if curr_color curr_pixel > SIGMA then 0 else 1

/-- The grid after rows `lo .. hi - 1` have been sampled. -/
def sampledRows (scaled_image : ppm_image) (lo hi : Nat) (grid : Grid) : Grid :=
  fun a b =>
    if lo ≤ a ∧ a < hi ∧ b < scaled_image.y / STEP
    then threshold_bit (scaled_image.data (a * STEP * scaled_image.y + b * STEP))
    else grid a b

/-- The image after the first `k` columns of tile row `i` have been copied. -/
def rowCopied (contour : ppm_image) (x y i k : Nat) (image : ppm_image) : ppm_image :=
  { x := image.x, y := image.y,
    data := fun n =>
      if n / image.y = x + i ∧ y ≤ n % image.y ∧ n % image.y < y + k
      then contour.data (contour.x * i + (n % image.y - y))
      else image.data n }

/-- The image after the first `k` rows of the tile have been copied. -/
def rowsCopied (contour : ppm_image) (x y k : Nat) (image : ppm_image) : ppm_image :=
  { x := image.x, y := image.y,
    data := fun n =>
      if x ≤ n / image.y ∧ n / image.y < x + k ∧ y ≤ n % image.y ∧ n % image.y < y + contour.y
      then contour.data (contour.x * (n / image.y - x) + (n % image.y - y))
      else image.data n }

/-- The image after the cells `(i, 0) .. (i, k - 1)` of grid row `i` have been
marched. -/
def marchedRow (contour_map : Nat → ppm_image) (grid : Grid) (i k : Nat)
    (image : ppm_image) : ppm_image :=
  { x := image.x, y := image.y,
    data := fun n =>
      if i * STEP ≤ n / image.y ∧ n / image.y < i * STEP + STEP ∧ n % image.y < k * STEP
      then (contour_map (march_code grid (n / image.y / STEP) (n % image.y / STEP))).data
        (STEP * (n / image.y % STEP) + n % image.y % STEP)
      else image.data n }

/-- The image after the grid rows `lo .. hi - 1`, of `q` cells each, have been
marched. -/
def marchedRows (contour_map : Nat → ppm_image) (grid : Grid) (q lo hi : Nat)
    (image : ppm_image) : ppm_image :=
  { x := image.x, y := image.y,
    data := fun n =>
      if lo * STEP ≤ n / image.y ∧ n / image.y < hi * STEP ∧ n % image.y < q * STEP
      then (contour_map (march_code grid (n / image.y / STEP) (n % image.y / STEP))).data
        (STEP * (n / image.y % STEP) + n % image.y % STEP)
      else image.data n }

/-! ## Concrete inputs -/

/-- A black pixel. -/
def black : ppm_pixel := ⟨0, 0, 0⟩

/-- A white pixel. -/
def white : ppm_pixel := ⟨255, 255, 255⟩

/-- The image of the given dimensions with every pixel black. -/
def blackImage (x y : Nat) : ppm_image := ⟨x, y, fun _ => black⟩

/-- The image of the given dimensions with every pixel white. -/
def whiteImage (x y : Nat) : ppm_image := ⟨x, y, fun _ => white⟩

/-- A tile library whose tiles are all black `STEP x STEP` images. -/
def blackTiles : Nat → ppm_image := fun _ => blackImage STEP STEP

/-- The grid with every cell `0`. -/
def zeroGrid : Grid := fun _ _ => 0

/-- The grid with every cell `1`. -/
def oneGrid : Grid := fun _ _ => 1

/-- The image with `x = 8`, `y = 16` that is white except for the pixels at
indices 7 and 120. -/
def fixupImage : ppm_image := ⟨8, 16, fun n => if n = 7 ∨ n = 120 then black else white⟩

/-! ## The start of `main` -/

/-- The first actions of `main` (lines 225-236). -/
inductive MainStep where
  | usage_return (code : Nat)
  | read_ppm_input
  | init_contour_map
  | atoi_argv3 (supplied : Bool)
deriving DecidableEq

/-- The start of `main` for a given `argc`: the test `argc < 3` with its
`return 1`, otherwise `read_ppm(argv[1])`, `init_contour_map()` and
`atoi(argv[3])`; the flag of the last step tells whether `argv[3]` is an
argument of the invocation (`argc > 3`) or the terminating null pointer. -/
def main_start (argc : Nat) : List MainStep :=
  if argc < 3 then [MainStep.usage_return 1]
  else [MainStep.read_ppm_input, MainStep.init_contour_map,
    MainStep.atoi_argv3 (decide (3 < argc))]

/-- The steps of `l` strictly after the first `a` and before the next `b`. -/
def steps_between (a b : Step) (l : List Step) : List Step :=
  ((l.dropWhile (fun s => decide (s ≠ a))).drop 1).takeWhile (fun s => decide (s ≠ b))

/-! ## The indices the program computes -/

/-- The pixel index read by the sampling loop (line 152). -/
def sample_pixel_index (scaled_image : ppm_image) (i j : Nat) : Nat :=
  i * STEP * scaled_image.y + j * STEP

/-- The first pixel index read by the fix-up loop (line 174). -/
def fixup_pixel_index (scaled_image : ppm_image) (i : Nat) : Nat :=
  i * STEP * scaled_image.y + scaled_image.x - 1

/-- The second pixel index read by the fix-up loop (line 175). -/
def fixup_pixel_index_j (scaled_image : ppm_image) (i : Nat) : Nat :=
  (scaled_image.x - 1) * scaled_image.y + i * STEP

/-- The tile index read by `update_image` (line 43). -/
def contour_pixel_index (contour : ppm_image) (i j : Nat) : Nat :=
  contour.x * i + j

/-- The image index written by `update_image` (line 44). -/
def image_pixel_index (image : ppm_image) (x y i j : Nat) : Nat :=
  (x + i) * image.y + y + j

/-- The image indices written by `update_image` (lines 41-50), in program
order. -/
def update_image_writes (image contour : ppm_image) (x y : Nat) : List Nat :=
  forRange 0 contour.x
    (fun i l => forRange 0 contour.y (fun j l2 => l2 ++ [image_pixel_index image x y i j]) l)
    []

/-- The grid cells read by one worker in the march loop (line 206), in
program order. -/
def f_march_grid_reads (scaled_image : ppm_image) (P thread_id : Nat) : List (Nat × Nat) :=
  let p := scaled_image.x / STEP
  let q := scaled_image.y / STEP
  let start := range_start p P thread_id
  let stop := range_end p P thread_id
  forRange start stop
    (fun i l => forRange 0 q
      (fun j l2 => l2 ++ [(i, j), (i, j + 1), (i + 1, j + 1), (i + 1, j)]) l)
    []

/-- Every grid cell one worker reads or writes in the sampling loop, the
corner write, the fix-up loop and the march loop. -/
def f_grid_accesses (scaled_image : ppm_image) (P thread_id : Nat) : List (Nat × Nat) :=
  f_sample_grid_writes scaled_image P thread_id ++ f_fixup_writes scaled_image P thread_id ++
    f_march_grid_reads scaled_image P thread_id

/-- The grid after the fix-up iterations `lo .. hi - 1`. -/
def fixedUp (scaled_image : ppm_image) (lo hi : Nat) (grid : Grid) : Grid :=
  fun a b =>
    if a = scaled_image.x / STEP ∧ lo ≤ b ∧ b < hi
    then threshold_bit (scaled_image.data (fixup_pixel_index_j scaled_image b))
    else if lo ≤ a ∧ a < hi ∧ b = scaled_image.y / STEP
    then threshold_bit (scaled_image.data (fixup_pixel_index scaled_image a))
    else grid a b

/-- A run of the program from grid construction to the end of the march
phase (lines 141-211): the workers of each of the three barrier epochs do
their work in the order of that epoch's schedule. -/
def run_pipeline (contour_map : Nat → ppm_image) (scaled_image : ppm_image) (grid : Grid)
    (P : Nat) (sched_sample sched_fixup sched_march : List Nat) : ppm_image :=
  let grid1 := run_epoch sched_sample (f_sample_grid scaled_image P) grid
  let grid2 := run_epoch sched_fixup (f_fixup scaled_image P) grid1
  run_epoch sched_march (f_march contour_map grid2 P) scaled_image

/-- A tile library in which every pixel of tile `k` has the three channels
equal to `k`, so that a stamped block shows which tile it came from. -/
def codeTiles : Nat → ppm_image :=
  fun k => ⟨STEP, STEP, fun _ => ⟨Fin.ofNat k, Fin.ofNat k, Fin.ofNat k⟩⟩

/-- The grid with `1` in the cells whose row and column have an even sum and
`0` elsewhere. -/
def checkerGrid : Grid := fun a b => if (a + b) % 2 = 0 then 1 else 0

/-- The unweighted mean of the three channels of a pixel, as a rational
number: the luminance in the words of the specification. -/
def unweighted_mean (curr_pixel : ppm_pixel) : ℚ :=
  ((curr_pixel.red.val : ℚ) + (curr_pixel.green.val : ℚ) + (curr_pixel.blue.val : ℚ)) / 3

/-- The image of the given dimensions with every pixel `(200, 200, 202)`. -/
def meanImage (x y : Nat) : ppm_image := ⟨x, y, fun _ => ⟨200, 200, 202⟩⟩

/-! ## The rounding of the binary64 model -/

theorem loopFrom_closed {σ : Type} (body : Nat → σ → σ) (F : Nat → σ) (n : Nat) :
    ∀ lo, (∀ i, lo ≤ i → i < lo + n → body i (F i) = F (i + 1)) →
      loopFrom body lo n (F lo) = F (lo + n) := by
  induction n with
  | zero => intro lo _; rfl
  | succ n ih =>
    intro lo h
    have h1 : body lo (F lo) = F (lo + 1) := h lo (Nat.le_refl _) (by omega)
    have h2 := ih (lo + 1) (fun i hi1 hi2 => h i (by omega) (by omega))
    simp only [loopFrom, h1, h2]
    congr 1
    omega

theorem forRange_closed {σ : Type} (lo hi : Nat) (body : Nat → σ → σ) (F : Nat → σ)
    (hle : lo ≤ hi) (h : ∀ i, lo ≤ i → i < hi → body i (F i) = F (i + 1)) :
    forRange lo hi body (F lo) = F hi := by
  unfold forRange
  have := loopFrom_closed body F (hi - lo) lo (fun i h1 h2 => h i h1 (by omega))
  rw [this]
  congr 1
  omega

theorem forRange_empty {σ : Type} (lo hi : Nat) (body : Nat → σ → σ) (s : σ)
    (hle : hi ≤ lo) : forRange lo hi body s = s := by
  unfold forRange
  have : hi - lo = 0 := by omega
  rw [this]
  rfl

theorem update_pixel_eq (contour : ppm_image) (x y i j : Nat) (image : ppm_image) :
    update_pixel contour x y i j image =
      { x := image.x, y := image.y,
        data := fun n => if n = (x + i) * image.y + y + j then contour.data (contour.x * i + j)
                         else image.data n } := by
  unfold update_pixel set_red set_green set_blue
  simp only
  congr 1
  funext n
  by_cases h : n = (x + i) * image.y + y + j <;> simp [h]

theorem index_div (r c Y : Nat) (h : c < Y) : (r * Y + c) / Y = r := by
  have hY : 0 < Y := by omega
  rw [Nat.add_comm, Nat.add_mul_div_right _ _ hY, Nat.div_eq_of_lt h]
  omega

theorem index_mod (r c Y : Nat) (h : c < Y) : (r * Y + c) % Y = c := by
  rw [Nat.add_comm, Nat.add_mul_mod_self_right, Nat.mod_eq_of_lt h]

theorem rowCopied_zero (contour : ppm_image) (x y i : Nat) (image : ppm_image) :
    rowCopied contour x y i 0 image = image := by
  unfold rowCopied
  congr 1
  funext n
  have : ¬ (n / image.y = x + i ∧ y ≤ n % image.y ∧ n % image.y < y + 0) := by omega
  simp only [this, if_false]

theorem update_row_closed (contour : ppm_image) (x y i : Nat) (image : ppm_image)
    (hy : y + contour.y ≤ image.y) :
    forRange 0 contour.y (fun j img2 => update_pixel contour x y i j img2) image =
      rowCopied contour x y i contour.y image := by
  have key := forRange_closed 0 contour.y (fun j img2 => update_pixel contour x y i j img2)
    (fun k => rowCopied contour x y i k image) (Nat.zero_le _) (by
      intro j _ hj
      simp only [update_pixel_eq]
      unfold rowCopied
      simp only
      congr 1
      funext n
      by_cases hn : n = (x + i) * image.y + y + j
      · have hd : n / image.y = x + i := by
          rw [hn, Nat.add_assoc]; exact index_div _ _ _ (by omega)
        have hm : n % image.y = y + j := by
          rw [hn, Nat.add_assoc]; exact index_mod _ _ _ (by omega)
        have hc : n / image.y = x + i ∧ y ≤ n % image.y ∧ n % image.y < y + (j + 1) := by
          omega
        rw [if_pos hn, if_pos hc, hm]
        congr 2
        omega
      · rw [if_neg hn]
        by_cases hc : n / image.y = x + i ∧ y ≤ n % image.y ∧ n % image.y < y + j
        · have hc2 : n / image.y = x + i ∧ y ≤ n % image.y ∧ n % image.y < y + (j + 1) := by
            omega
          rw [if_pos hc, if_pos hc2]
        · have hc2 : ¬ (n / image.y = x + i ∧ y ≤ n % image.y ∧ n % image.y < y + (j + 1)) := by
            intro h
            apply hn
            have := Nat.div_add_mod n image.y
            have h3 : n % image.y = y + j := by omega
            rw [← this, h.1, h3, Nat.mul_comm]
            omega
          rw [if_neg hc, if_neg hc2])
  simp only [rowCopied_zero] at key
  exact key

theorem rowsCopied_zero (contour : ppm_image) (x y : Nat) (image : ppm_image) :
    rowsCopied contour x y 0 image = image := by
  unfold rowsCopied
  congr 1
  funext n
  have : ¬ (x ≤ n / image.y ∧ n / image.y < x + 0 ∧ y ≤ n % image.y ∧
      n % image.y < y + contour.y) := by omega
  simp only [this, if_false]

theorem update_image_closed (image contour : ppm_image) (x y : Nat)
    (hy : y + contour.y ≤ image.y) :
    update_image image contour x y = rowsCopied contour x y contour.x image := by
  unfold update_image
  have key := forRange_closed 0 contour.x
    (fun i img => forRange 0 contour.y (fun j img2 => update_pixel contour x y i j img2) img)
    (fun k => rowsCopied contour x y k image) (Nat.zero_le _) (by
      intro i _ hi
      simp only
      rw [update_row_closed contour x y i _ (by simpa [rowsCopied] using hy)]
      unfold rowCopied rowsCopied
      simp only
      congr 1
      funext n
      by_cases h1 : n / image.y = x + i ∧ y ≤ n % image.y ∧ n % image.y < y + contour.y
      · have h2 : x ≤ n / image.y ∧ n / image.y < x + (i + 1) ∧ y ≤ n % image.y ∧
            n % image.y < y + contour.y := by omega
        have e : n / image.y - x = i := by omega
        rw [if_pos h1, if_pos h2, e]
      · rw [if_neg h1]
        by_cases h3 : x ≤ n / image.y ∧ n / image.y < x + i ∧ y ≤ n % image.y ∧
            n % image.y < y + contour.y
        · have h2 : x ≤ n / image.y ∧ n / image.y < x + (i + 1) ∧ y ≤ n % image.y ∧
              n % image.y < y + contour.y := by omega
          rw [if_pos h3, if_pos h2]
        · have h2 : ¬ (x ≤ n / image.y ∧ n / image.y < x + (i + 1) ∧ y ≤ n % image.y ∧
              n % image.y < y + contour.y) := by omega
          rw [if_neg h3, if_neg h2])
  simp only [rowsCopied_zero] at key
  exact key

theorem sample_step_eq (scaled_image : ppm_image) (i j : Nat) (grid : Grid) :
    sample_step scaled_image i j grid =
      grid.set i j (threshold_bit (scaled_image.data (i * STEP * scaled_image.y + j * STEP))) := by
  unfold sample_step threshold_bit
  simp only
  split <;> rfl

theorem sample_row_closed (scaled_image : ppm_image) (i : Nat) (grid : Grid) :
    forRange 0 (scaled_image.y / STEP) (fun j g2 => sample_step scaled_image i j g2) grid =
      fun a b =>
        if a = i ∧ b < scaled_image.y / STEP
        then threshold_bit (scaled_image.data (a * STEP * scaled_image.y + b * STEP))
        else grid a b := by
  have key := forRange_closed 0 (scaled_image.y / STEP)
    (fun j g2 => sample_step scaled_image i j g2)
    (fun k a b =>
      if a = i ∧ b < k
      then threshold_bit (scaled_image.data (a * STEP * scaled_image.y + b * STEP))
      else grid a b) (Nat.zero_le _) (by
      intro j _ _
      simp only [sample_step_eq]
      funext a b
      unfold Grid.set
      beta_reduce
      by_cases h : a = i ∧ b = j
      · rw [if_pos h, if_pos (by omega), h.1, h.2]
      · rw [if_neg h]
        by_cases h2 : a = i ∧ b < j
        · rw [if_pos h2, if_pos (by omega)]
        · rw [if_neg h2, if_neg (by omega)])
  have h0 : (fun a b =>
      if a = i ∧ b < 0
      then threshold_bit (scaled_image.data (a * STEP * scaled_image.y + b * STEP))
      else grid a b) = grid := by
    funext a b
    rw [if_neg (by omega)]
  simp only [h0] at key
  exact key

theorem sample_rows_closed (scaled_image : ppm_image) (lo hi : Nat) (grid : Grid) :
    forRange lo hi
      (fun i g => forRange 0 (scaled_image.y / STEP)
        (fun j g2 => sample_step scaled_image i j g2) g) grid =
      sampledRows scaled_image lo hi grid := by
  by_cases hle : lo ≤ hi
  · have key := forRange_closed lo hi
      (fun i g => forRange 0 (scaled_image.y / STEP)
        (fun j g2 => sample_step scaled_image i j g2) g)
      (fun k => sampledRows scaled_image lo k grid) hle (by
        intro i _ _
        simp only [sample_row_closed]
        funext a b
        unfold sampledRows
        by_cases h : a = i ∧ b < scaled_image.y / STEP
        · rw [if_pos h, if_pos (by omega)]
        · rw [if_neg h]
          by_cases h2 : lo ≤ a ∧ a < i ∧ b < scaled_image.y / STEP
          · rw [if_pos h2, if_pos (by omega)]
          · rw [if_neg h2, if_neg (by omega)])
    have h0 : sampledRows scaled_image lo lo grid = grid := by
      funext a b
      unfold sampledRows
      rw [if_neg (by omega)]
    simp only [h0] at key
    exact key
  · rw [forRange_empty lo hi _ _ (by omega)]
    funext a b
    unfold sampledRows
    rw [if_neg (by omega)]

theorem curr_color_eq (p : ppm_pixel) :
    curr_color p = (p.red.val + p.green.val + p.blue.val) / 3 := by
  unfold curr_color
  have h1 := p.red.isLt
  have h2 := p.green.isLt
  have h3 := p.blue.isLt
  omega

theorem march_row_closed (contour_map : Nat → ppm_image) (grid : Grid) (i q : Nat)
    (image : ppm_image)
    (htile : ∀ k, (contour_map k).x = STEP ∧ (contour_map k).y = STEP)
    (hq : q * STEP ≤ image.y) :
    forRange 0 q (fun j img2 => march_step contour_map grid i j img2) image =
      marchedRow contour_map grid i q image := by
  have key := forRange_closed 0 q (fun j img2 => march_step contour_map grid i j img2)
    (fun k => marchedRow contour_map grid i k image) (Nat.zero_le _) (by
      intro j _ hj
      have hx := (htile (march_code grid i j)).1
      have hy := (htile (march_code grid i j)).2
      have hfit : j * STEP + STEP ≤ image.y := by
        simp only [STEP] at hq ⊢
        omega
      simp only [march_step]
      rw [update_image_closed _ _ _ _ (by rw [hy]; exact hfit)]
      unfold rowsCopied marchedRow
      simp only [hx, hy]
      congr 1
      funext n
      simp only [STEP] at hq hfit ⊢
      by_cases h1 : i * 8 ≤ n / image.y ∧ n / image.y < i * 8 + 8 ∧ j * 8 ≤ n % image.y ∧
          n % image.y < j * 8 + 8
      · have e1 : n / image.y / 8 = i := by omega
        have e2 : n % image.y / 8 = j := by omega
        have e3 : n / image.y - i * 8 = n / image.y % 8 := by omega
        have e4 : n % image.y - j * 8 = n % image.y % 8 := by omega
        rw [if_pos h1, if_pos (by omega), e1, e2, e3, e4]
      · rw [if_neg h1]
        by_cases h2 : i * 8 ≤ n / image.y ∧ n / image.y < i * 8 + 8 ∧ n % image.y < j * 8
        · rw [if_pos h2, if_pos (by omega)]
        · rw [if_neg h2, if_neg (by omega)])
  have h0 : marchedRow contour_map grid i 0 image = image := by
    unfold marchedRow
    congr 1
    funext n
    rw [if_neg (by omega)]
  simp only [h0] at key
  exact key

theorem march_rows_closed (contour_map : Nat → ppm_image) (grid : Grid) (q lo hi : Nat)
    (image : ppm_image)
    (htile : ∀ k, (contour_map k).x = STEP ∧ (contour_map k).y = STEP)
    (hq : q * STEP ≤ image.y) :
    forRange lo hi
      (fun i img => forRange 0 q (fun j img2 => march_step contour_map grid i j img2) img)
      image = marchedRows contour_map grid q lo hi image := by
  have h0 : ∀ k, k ≤ lo → marchedRows contour_map grid q lo k image = image := by
    intro k hk
    unfold marchedRows
    congr 1
    funext n
    have : k * STEP ≤ lo * STEP := Nat.mul_le_mul_right STEP hk
    rw [if_neg (by omega)]
  by_cases hle : lo ≤ hi
  · have key := forRange_closed lo hi
      (fun i img => forRange 0 q (fun j img2 => march_step contour_map grid i j img2) img)
      (fun k => marchedRows contour_map grid q lo k image) hle (by
        intro i hi1 _
        simp only
        rw [march_row_closed contour_map grid i q _ htile (by simpa [marchedRows] using hq)]
        unfold marchedRow marchedRows
        simp only
        congr 1
        funext n
        have hmul : lo * STEP ≤ i * STEP := Nat.mul_le_mul_right STEP hi1
        simp only [STEP] at hq hmul ⊢
        by_cases h1 : i * 8 ≤ n / image.y ∧ n / image.y < i * 8 + 8 ∧ n % image.y < q * 8
        · rw [if_pos h1, if_pos (by omega)]
        · rw [if_neg h1]
          by_cases h2 : lo * 8 ≤ n / image.y ∧ n / image.y < i * 8 ∧ n % image.y < q * 8
          · rw [if_pos h2, if_pos (by omega)]
          · rw [if_neg h2, if_neg (by omega)])
    simp only [h0 lo (Nat.le_refl _)] at key
    exact key
  · rw [forRange_empty lo hi _ _ (by omega), h0 hi (by omega)]

theorem f_march_closed (contour_map : Nat → ppm_image) (grid : Grid) (P thread_id : Nat)
    (scaled_image : ppm_image)
    (htile : ∀ k, (contour_map k).x = STEP ∧ (contour_map k).y = STEP) :
    f_march contour_map grid P thread_id scaled_image =
      marchedRows contour_map grid (scaled_image.y / STEP)
        (range_start (scaled_image.x / STEP) P thread_id)
        (range_end (scaled_image.x / STEP) P thread_id) scaled_image := by
  unfold f_march
  exact march_rows_closed contour_map grid _ _ _ scaled_image htile
    (Nat.div_mul_le_self _ _)

theorem range_end_le (N P thread_id : Nat) : range_end N P thread_id ≤ N := by
  unfold range_end
  simp only
  split
  · rename_i h
    simp only [Dbl.lt, Dbl.ofInt, decide_eq_true_eq, pow_zero, Nat.mul_one] at h
    unfold Dbl.toInt
    exact Nat.le_of_lt (Nat.div_lt_of_lt_mul (by rw [Nat.mul_comm]; exact h))
  · exact Nat.le_refl _

theorem march_code_eq (grid : Grid) (i j : Nat)
    (h1 : grid i j ≤ 1) (h2 : grid i (j + 1) ≤ 1) (h3 : grid (i + 1) (j + 1) ≤ 1)
    (h4 : grid (i + 1) j ≤ 1) :
    march_code grid i j =
      8 * grid i j + 4 * grid i (j + 1) + 2 * grid (i + 1) (j + 1) + 1 * grid (i + 1) j := by
  unfold march_code
  omega

theorem pixel_index_lt (r c X Y : Nat) (hr : r < X) (hc : c < Y) : r * Y + c < X * Y := by
  have h1 : (r + 1) * Y ≤ X * Y := Nat.mul_le_mul_right Y hr
  rw [Nat.add_mul, Nat.one_mul] at h1
  omega

/-! ## Index definitions and traces agree with the loop bodies -/

theorem sample_step_index (scaled_image : ppm_image) (i j : Nat) (grid : Grid) :
    sample_step scaled_image i j grid =
      if curr_color (scaled_image.data (sample_pixel_index scaled_image i j)) > SIGMA
      then grid.set i j 0 else grid.set i j 1 := rfl

theorem fixup_step_index (scaled_image : ppm_image) (i : Nat) (grid : Grid) :
    fixup_step scaled_image i grid =
      (if curr_color (scaled_image.data (fixup_pixel_index_j scaled_image i)) > SIGMA
       then
        (if curr_color (scaled_image.data (fixup_pixel_index scaled_image i)) > SIGMA
          then grid.set i (scaled_image.y / STEP) 0
          else grid.set i (scaled_image.y / STEP) 1).set (scaled_image.x / STEP) i 0
       else
        (if curr_color (scaled_image.data (fixup_pixel_index scaled_image i)) > SIGMA
          then grid.set i (scaled_image.y / STEP) 0
          else grid.set i (scaled_image.y / STEP) 1).set (scaled_image.x / STEP) i 1) := rfl

theorem update_pixel_index (contour : ppm_image) (x y i j : Nat) (image : ppm_image) :
    update_pixel contour x y i j image =
      { x := image.x, y := image.y,
        data := fun n => if n = image_pixel_index image x y i j
                         then contour.data (contour_pixel_index contour i j)
                         else image.data n } :=
  update_pixel_eq contour x y i j image

/-- Membership in the list built by a loop whose body only appends. -/
theorem mem_loopFrom_append {α : Type} (F : Nat → List α → List α) (G : Nat → α → Prop)
    (hF : ∀ i l x, x ∈ F i l ↔ x ∈ l ∨ G i x) (x : α) (n : Nat) :
    ∀ lo l0, x ∈ loopFrom F lo n l0 ↔ x ∈ l0 ∨ ∃ i, lo ≤ i ∧ i < lo + n ∧ G i x := by
  induction n with
  | zero =>
    intro lo l0
    simp only [loopFrom]
    constructor
    · intro h; exact Or.inl h
    · rintro (h | ⟨i, h1, h2, _⟩)
      · exact h
      · omega
  | succ n ih =>
    intro lo l0
    simp only [loopFrom]
    rw [ih (lo + 1) (F lo l0), hF]
    constructor
    · rintro ((h | h) | ⟨i, h1, h2, h3⟩)
      · exact Or.inl h
      · exact Or.inr ⟨lo, Nat.le_refl _, by omega, h⟩
      · exact Or.inr ⟨i, by omega, by omega, h3⟩
    · rintro (h | ⟨i, h1, h2, h3⟩)
      · exact Or.inl (Or.inl h)
      · by_cases hi : i = lo
        · subst hi; exact Or.inl (Or.inr h3)
        · exact Or.inr ⟨i, by omega, by omega, h3⟩

theorem mem_forRange_append {α : Type} (F : Nat → List α → List α) (G : Nat → α → Prop)
    (hF : ∀ i l x, x ∈ F i l ↔ x ∈ l ∨ G i x) (x : α) (lo hi : Nat) (l0 : List α) :
    x ∈ forRange lo hi F l0 ↔ x ∈ l0 ∨ ∃ i, lo ≤ i ∧ i < hi ∧ G i x := by
  unfold forRange
  rw [mem_loopFrom_append F G hF x (hi - lo) lo l0]
  constructor
  · rintro (h | ⟨i, h1, h2, h3⟩)
    · exact Or.inl h
    · exact Or.inr ⟨i, h1, by omega, h3⟩
  · rintro (h | ⟨i, h1, h2, h3⟩)
    · exact Or.inl h
    · exact Or.inr ⟨i, h1, by omega, h3⟩

theorem mem_update_image_writes (image contour : ppm_image) (x y n : Nat) :
    n ∈ update_image_writes image contour x y ↔
      ∃ i, i < contour.x ∧ ∃ j, j < contour.y ∧ n = image_pixel_index image x y i j := by
  unfold update_image_writes
  rw [mem_forRange_append _
    (fun i n => ∃ j, j < contour.y ∧ n = image_pixel_index image x y i j)]
  · constructor
    · rintro (h | ⟨i, _, h2, h3⟩)
      · simp at h
      · exact ⟨i, h2, h3⟩
    · rintro ⟨i, h2, h3⟩
      exact Or.inr ⟨i, Nat.zero_le _, h2, h3⟩
  · intro i l m
    rw [mem_forRange_append _ (fun j m => m = image_pixel_index image x y i j)]
    · constructor
      · rintro (h | ⟨j, _, h2, h3⟩)
        · exact Or.inl h
        · exact Or.inr ⟨j, h2, h3⟩
      · rintro (h | ⟨j, h2, h3⟩)
        · exact Or.inl h
        · exact Or.inr ⟨j, Nat.zero_le _, h2, h3⟩
    · intro j l2 m2
      simp

theorem mem_f_sample_grid_writes (scaled_image : ppm_image) (P thread_id : Nat) (c : Nat × Nat) :
    c ∈ f_sample_grid_writes scaled_image P thread_id ↔
      (∃ i, range_start (scaled_image.x / STEP) P thread_id ≤ i ∧
        i < range_end (scaled_image.x / STEP) P thread_id ∧
        ∃ j, j < scaled_image.y / STEP ∧ c = (i, j)) ∨
      (thread_id = 0 ∧ c = (scaled_image.x / STEP, scaled_image.y / STEP)) := by
  have hw : ∀ lo hi, c ∈ forRange lo hi
      (fun i l => forRange 0 (scaled_image.y / STEP) (fun j l2 => l2 ++ [(i, j)]) l) [] ↔
      ∃ i, lo ≤ i ∧ i < hi ∧ ∃ j, j < scaled_image.y / STEP ∧ c = (i, j) := by
    intro lo hi
    rw [mem_forRange_append _ (fun i c => ∃ j, j < scaled_image.y / STEP ∧ c = (i, j))]
    · simp
    · intro i l m
      rw [mem_forRange_append _ (fun j m => m = (i, j))]
      · simp
      · intro j l2 m2
        simp
  unfold f_sample_grid_writes
  simp only
  split
  · rename_i h
    rw [List.mem_append, hw]
    simp [h]
  · rename_i h
    rw [hw]
    simp [h]

theorem mem_f_fixup_writes (scaled_image : ppm_image) (P thread_id : Nat) (c : Nat × Nat) :
    c ∈ f_fixup_writes scaled_image P thread_id ↔
      ∃ i, range_start (scaled_image.x / STEP) P thread_id ≤ i ∧
        i < range_end (scaled_image.x / STEP) P thread_id ∧
        (c = (i, scaled_image.y / STEP) ∨ c = (scaled_image.x / STEP, i)) := by
  unfold f_fixup_writes
  simp only
  rw [mem_forRange_append _
    (fun i c => c = (i, scaled_image.y / STEP) ∨ c = (scaled_image.x / STEP, i))]
  · simp
  · intro i l m
    simp

theorem mem_f_march_grid_reads (scaled_image : ppm_image) (P thread_id : Nat) (c : Nat × Nat) :
    c ∈ f_march_grid_reads scaled_image P thread_id ↔
      ∃ i, range_start (scaled_image.x / STEP) P thread_id ≤ i ∧
        i < range_end (scaled_image.x / STEP) P thread_id ∧
        ∃ j, j < scaled_image.y / STEP ∧
          (c = (i, j) ∨ c = (i, j + 1) ∨ c = (i + 1, j + 1) ∨ c = (i + 1, j)) := by
  unfold f_march_grid_reads
  simp only
  rw [mem_forRange_append _ (fun i c => ∃ j, j < scaled_image.y / STEP ∧
    (c = (i, j) ∨ c = (i, j + 1) ∨ c = (i + 1, j + 1) ∨ c = (i + 1, j)))]
  · simp
  · intro i l m
    rw [mem_forRange_append _
      (fun j m => m = (i, j) ∨ m = (i, j + 1) ∨ m = (i + 1, j + 1) ∨ m = (i + 1, j))]
    · simp
    · intro j l2 m2
      simp

theorem fixup_step_eq (scaled_image : ppm_image) (i : Nat) (grid : Grid) :
    fixup_step scaled_image i grid =
      (grid.set i (scaled_image.y / STEP)
        (threshold_bit (scaled_image.data (fixup_pixel_index scaled_image i)))).set
        (scaled_image.x / STEP) i
        (threshold_bit (scaled_image.data (fixup_pixel_index_j scaled_image i))) := by
  rw [fixup_step_index]
  unfold threshold_bit
  split <;> split <;> rfl

theorem fixup_closed (scaled_image : ppm_image) (lo hi : Nat) (grid : Grid)
    (hhi : hi ≤ scaled_image.x / STEP) :
    forRange lo hi (fun i g => fixup_step scaled_image i g) grid =
      fixedUp scaled_image lo hi grid := by
  have h0 : ∀ k, k ≤ lo → fixedUp scaled_image lo k grid = grid := by
    intro k hk
    funext a b
    unfold fixedUp
    rw [if_neg (by omega), if_neg (by omega)]
  by_cases hle : lo ≤ hi
  · have key := forRange_closed lo hi (fun i g => fixup_step scaled_image i g)
      (fun k => fixedUp scaled_image lo k grid) hle (by
        intro i h1 h2
        simp only [fixup_step_eq]
        funext a b
        simp only [Grid.set, fixedUp]
        split_ifs <;> first | rfl | (exfalso; omega) | simp_all)
    simp only [h0 lo (Nat.le_refl _)] at key
    exact key
  · rw [forRange_empty lo hi _ _ (by omega), h0 hi (by omega)]

theorem f_fixup_closed (scaled_image : ppm_image) (P thread_id : Nat) (grid : Grid) :
    f_fixup scaled_image P thread_id grid =
      fixedUp scaled_image (range_start (scaled_image.x / STEP) P thread_id)
        (range_end (scaled_image.x / STEP) P thread_id) grid := by
  unfold f_fixup
  exact fixup_closed scaled_image _ _ grid (range_end_le _ _ _)

theorem f_sample_grid_closed (scaled_image : ppm_image) (P thread_id : Nat) (grid : Grid) :
    f_sample_grid scaled_image P thread_id grid =
      fun a b =>
        if thread_id = 0 ∧ a = scaled_image.x / STEP ∧ b = scaled_image.y / STEP then 0
        else sampledRows scaled_image (range_start (scaled_image.x / STEP) P thread_id)
          (range_end (scaled_image.x / STEP) P thread_id) grid a b := by
  unfold f_sample_grid
  simp only [sample_rows_closed]
  funext a b
  by_cases h : thread_id = 0
  · simp only [h, if_true, Grid.set, true_and]
  · simp only [h, if_false, false_and]

theorem f_sample_grid_comm (scaled_image : ppm_image) (P t t' : Nat) (grid : Grid) :
    f_sample_grid scaled_image P t' (f_sample_grid scaled_image P t grid) =
      f_sample_grid scaled_image P t (f_sample_grid scaled_image P t' grid) := by
  simp only [f_sample_grid_closed]
  funext a b
  simp only [sampledRows]
  split_ifs <;> first | rfl | (exfalso; omega)

theorem f_fixup_comm (scaled_image : ppm_image) (P t t' : Nat) (grid : Grid) :
    f_fixup scaled_image P t' (f_fixup scaled_image P t grid) =
      f_fixup scaled_image P t (f_fixup scaled_image P t' grid) := by
  simp only [f_fixup_closed]
  have h1 := range_end_le (scaled_image.x / STEP) P t
  have h2 := range_end_le (scaled_image.x / STEP) P t'
  funext a b
  simp only [fixedUp]
  split_ifs <;> first | rfl | (exfalso; omega)

theorem f_march_comm (contour_map : Nat → ppm_image) (grid : Grid) (P t t' : Nat)
    (scaled_image : ppm_image)
    (htile : ∀ k, (contour_map k).x = STEP ∧ (contour_map k).y = STEP) :
    f_march contour_map grid P t' (f_march contour_map grid P t scaled_image) =
      f_march contour_map grid P t (f_march contour_map grid P t' scaled_image) := by
  simp only [f_march_closed _ _ _ _ _ htile]
  unfold marchedRows
  simp only
  congr 1
  funext n
  split_ifs <;> rfl

theorem run_epoch_perm {σ : Type} (work : Nat → σ → σ) (l₁ l₂ : List Nat) (s : σ)
    (hp : l₁.Perm l₂) (hcomm : ∀ t t' z, work t' (work t z) = work t (work t' z)) :
    run_epoch l₁ work s = run_epoch l₂ work s := by
  unfold run_epoch
  exact List.Perm.foldl_eq' hp (fun x _ y _ z => hcomm x y z) s

set_option maxRecDepth 1000000

/-- C1 (partition coverage), evaluated on the code: with `N = 61` and `P = 7`
(an image of 488 rows and seven threads) the product `7 * ((double)61 / 7)`
is rounded below `61`, so the last worker stops at `60` and index `60`
belongs to no worker; likewise `N = 15, P = 11` loses index `14`, and
`N = 1, P = 49` gives every worker an empty range. -/
theorem partition_misses_last_index :
    (List.range 7).map (fun t => (range_start 61 7 t, range_end 61 7 t)) =
      [(0, 8), (8, 17), (17, 26), (26, 34), (34, 43), (43, 52), (52, 60)] ∧
    Dbl.lt (Dbl.mul (Dbl.ofInt 7) (Dbl.div (Dbl.ofInt 61) (Dbl.ofInt 7))) (Dbl.ofInt 61) = true ∧
    (List.range 11).map (fun t => (range_start 15 11 t, range_end 15 11 t)) =
      [(0, 1), (1, 2), (2, 4), (4, 5), (5, 6), (6, 8), (8, 9), (9, 10), (10, 12), (12, 13),
        (13, 14)] ∧
    (List.range 49).all (fun t => range_start 1 49 t = 0 ∧ range_end 1 49 t = 0) = true ∧
    Dbl.div (Dbl.ofInt 1) (Dbl.ofInt 49) = ⟨5882252574524729, 58⟩ ∧
    Dbl.mul (Dbl.ofInt 49) (Dbl.div (Dbl.ofInt 1) (Dbl.ofInt 49)) = ⟨2 ^ 53 - 1, 53⟩ := by
  decide

/-- C2 (grid determinism), evaluated on the code: for the all-black 8 x 8
image and a zero-filled grid, one worker sets `grid[0][0]` to `1` while 49
workers leave it `0`; for the all-black 120 x 120 image, one worker sets
`grid[14][3]` to `1` while 11 workers leave it `0`. -/
theorem grid_differs_between_worker_counts :
    grid_construction (blackImage 8 8) 1 zeroGrid 0 0 = 1 ∧
    grid_construction (blackImage 8 8) 49 zeroGrid 0 0 = 0 ∧
    grid_construction (blackImage 120 120) 1 zeroGrid 14 3 = 1 ∧
    grid_construction (blackImage 120 120) 11 zeroGrid 14 3 = 0 := by
  decide

/-- The configuration code and the stamped tile of one cell: for a grid of
cells 0 or 1, tiles of `STEP x STEP` pixels and a cell `(i, j)` with
`i < x / STEP` and `j < y / STEP`, the code `k` computed by the loop body is
`8 * grid[i][j] + 4 * grid[i][j+1] + 2 * grid[i+1][j+1] + 1 * grid[i+1][j]`,
it is at most 15, the loop body is `update_image` with tile `contour_map[k]`
at offset `(i * STEP, j * STEP)`, after it the image block at that offset
holds the pixels of that tile (at indices inside the image buffer), the block
still holds them when the march loop of a worker whose range contains `i`
has finished, and the corner values 1, 0, 1, 0 give code 10 and tile 10. -/
theorem march_configuration_code (contour_map : Nat → ppm_image) (grid : Grid)
    (scaled_image : ppm_image) (i j : Nat)
    (hgrid : ∀ a b, grid a b = 0 ∨ grid a b = 1)
    (htile : ∀ k, (contour_map k).x = STEP ∧ (contour_map k).y = STEP)
    (hi : i < scaled_image.x / STEP) (hj : j < scaled_image.y / STEP) :
    march_code grid i j =
      8 * grid i j + 4 * grid i (j + 1) + 2 * grid (i + 1) (j + 1) + 1 * grid (i + 1) j ∧
    march_code grid i j ≤ 15 ∧
    march_step contour_map grid i j scaled_image =
      update_image scaled_image
        (contour_map
          (8 * grid i j + 4 * grid i (j + 1) + 2 * grid (i + 1) (j + 1) + 1 * grid (i + 1) j))
        (i * STEP) (j * STEP) ∧
    (∀ a b, a < STEP → b < STEP →
      (march_step contour_map grid i j scaled_image).data
          ((i * STEP + a) * scaled_image.y + (j * STEP + b)) =
        (contour_map
          (8 * grid i j + 4 * grid i (j + 1) + 2 * grid (i + 1) (j + 1) + 1 * grid (i + 1) j)).data
          (a * STEP + b) ∧
      (i * STEP + a) * scaled_image.y + (j * STEP + b) < scaled_image.x * scaled_image.y) ∧
    (∀ P thread_id, range_start (scaled_image.x / STEP) P thread_id ≤ i →
      i < range_end (scaled_image.x / STEP) P thread_id →
      ∀ a b, a < STEP → b < STEP →
        (f_march contour_map grid P thread_id scaled_image).data
            ((i * STEP + a) * scaled_image.y + (j * STEP + b)) =
          (contour_map
            (8 * grid i j + 4 * grid i (j + 1) + 2 * grid (i + 1) (j + 1) +
              1 * grid (i + 1) j)).data (a * STEP + b)) ∧
    (grid i j = 1 → grid i (j + 1) = 0 → grid (i + 1) (j + 1) = 1 → grid (i + 1) j = 0 →
      march_code grid i j = 10 ∧
      march_step contour_map grid i j scaled_image =
        update_image scaled_image (contour_map 10) (i * STEP) (j * STEP)) := by
  have g1 : grid i j ≤ 1 := by rcases hgrid i j with h | h <;> omega
  have g2 : grid i (j + 1) ≤ 1 := by rcases hgrid i (j + 1) with h | h <;> omega
  have g3 : grid (i + 1) (j + 1) ≤ 1 := by rcases hgrid (i + 1) (j + 1) with h | h <;> omega
  have g4 : grid (i + 1) j ≤ 1 := by rcases hgrid (i + 1) j with h | h <;> omega
  have hk := march_code_eq grid i j g1 g2 g3 g4
  have hstep : march_step contour_map grid i j scaled_image =
      update_image scaled_image
        (contour_map
          (8 * grid i j + 4 * grid i (j + 1) + 2 * grid (i + 1) (j + 1) + 1 * grid (i + 1) j))
        (i * STEP) (j * STEP) := by
    unfold march_step
    simp only [hk]
  have hfit : j * STEP + STEP ≤ scaled_image.y := by
    simp only [STEP] at hj ⊢
    omega
  have hfitx : i * STEP + STEP ≤ scaled_image.x := by
    simp only [STEP] at hi ⊢
    omega
  refine ⟨hk, by rw [hk]; omega, hstep, ?_, ?_, ?_⟩
  · intro a b ha hb
    have hty := (htile (8 * grid i j + 4 * grid i (j + 1) + 2 * grid (i + 1) (j + 1) +
      1 * grid (i + 1) j)).2
    have htx := (htile (8 * grid i j + 4 * grid i (j + 1) + 2 * grid (i + 1) (j + 1) +
      1 * grid (i + 1) j)).1
    refine ⟨?_, pixel_index_lt _ _ _ _ (by omega) (by omega)⟩
    rw [hstep, update_image_closed _ _ _ _ (by rw [hty]; exact hfit)]
    have hd := index_div (i * STEP + a) (j * STEP + b) scaled_image.y (by omega)
    have hm := index_mod (i * STEP + a) (j * STEP + b) scaled_image.y (by omega)
    simp only [rowsCopied, hd, hm]
    have e1 : i * STEP + a - i * STEP = a := by omega
    have e2 : j * STEP + b - j * STEP = b := by omega
    rw [if_pos (by omega), htx, e1, e2, Nat.mul_comm STEP a]
  · intro P thread_id hlo hhi a b ha hb
    rw [f_march_closed contour_map grid P thread_id scaled_image htile]
    have hd := index_div (i * STEP + a) (j * STEP + b) scaled_image.y (by omega)
    have hm := index_mod (i * STEP + a) (j * STEP + b) scaled_image.y (by omega)
    have hlo2 : range_start (scaled_image.x / STEP) P thread_id * STEP ≤ i * STEP :=
      Nat.mul_le_mul_right STEP hlo
    have hhi2 : (i + 1) * STEP ≤ range_end (scaled_image.x / STEP) P thread_id * STEP :=
      Nat.mul_le_mul_right STEP hhi
    have hq2 : (j + 1) * STEP ≤ scaled_image.y / STEP * STEP := Nat.mul_le_mul_right STEP hj
    have e1 : (i * STEP + a) / STEP = i := by
      simp only [STEP] at ha ⊢
      omega
    have e2 : (j * STEP + b) / STEP = j := by
      simp only [STEP] at hb ⊢
      omega
    have e3 : (i * STEP + a) % STEP = a := by
      simp only [STEP] at ha ⊢
      omega
    have e4 : (j * STEP + b) % STEP = b := by
      simp only [STEP] at hb ⊢
      omega
    simp only [marchedRows, hd, hm]
    rw [if_pos (by
      rw [Nat.add_mul, Nat.one_mul] at hhi2 hq2
      omega), e1, e2, e3, e4, hk, Nat.mul_comm STEP a]
  · intro c1 c2 c3 c4
    have h10 : march_code grid i j = 10 := by rw [hk, c1, c2, c3, c4]
    refine ⟨h10, ?_⟩
    unfold march_step
    simp only [h10]

/-- C3 (configuration code), evaluated on the code: on the white image with
`x = 120`, `y = 8` and the checker grid, the cell `(14, 0)` has
`14 < x / STEP` and `0 < y / STEP`, its corner values are 1, 0, 1, 0 and its
code is 10; with one worker the march phase copies tile 10 into its block
(the pixel at index `14 * STEP * 8` becomes a pixel of tile 10), but with 11
workers no range contains row 14, so the march phase computes no code for the
cell and the pixel stays white. -/
theorem march_skips_in_bounds_cell :
    14 < (whiteImage 120 8).x / STEP ∧ 0 < (whiteImage 120 8).y / STEP ∧
    checkerGrid 14 0 = 1 ∧ checkerGrid 14 1 = 0 ∧ checkerGrid 15 1 = 1 ∧
    checkerGrid 15 0 = 0 ∧
    march_code checkerGrid 14 0 = 10 ∧
    (march codeTiles checkerGrid 1 (whiteImage 120 8)).data (14 * STEP * 8 + 0) =
      (codeTiles 10).data 0 ∧
    (march codeTiles checkerGrid 11 (whiteImage 120 8)).data (14 * STEP * 8 + 0) = white ∧
    (codeTiles 10).data 0 ≠ white ∧
    (List.range 11).all (fun t => decide
      (¬ (range_start ((whiteImage 120 8).x / STEP) 11 t ≤ 14 ∧
        14 < range_end ((whiteImage 120 8).x / STEP) 11 t))) = true := by
  decide

/-- C4 as stated fails: for the pixel `(200, 200, 202)` the unweighted mean
of the channels is `602 / 3`, above `SIGMA = 200`, yet the sampling loop of
the single worker sets `grid[0][0]` to `1` on the 8 x 8 image of such pixels,
because line 154 truncates the quotient to `200`. -/
theorem threshold_uses_truncated_mean :
    range_start ((meanImage 8 8).x / STEP) 1 0 ≤ 0 ∧
    0 < range_end ((meanImage 8 8).x / STEP) 1 0 ∧
    0 < (meanImage 8 8).y / STEP ∧
    f_sample_grid (meanImage 8 8) 1 0 zeroGrid 0 0 = 1 ∧
    ¬ (unweighted_mean ((meanImage 8 8).data (sample_pixel_index (meanImage 8 8) 0 0)) ≤
        (SIGMA : ℚ)) ∧
    curr_color ((meanImage 8 8).data (sample_pixel_index (meanImage 8 8) 0 0)) = 200 := by
  refine ⟨by decide, by decide, by decide, by decide, ?_, by decide⟩
  have h1 : ((200 : Fin 256) : Nat) = 200 := rfl
  have h2 : ((202 : Fin 256) : Nat) = 202 := rfl
  simp only [unweighted_mean, meanImage, SIGMA, h1, h2]
  norm_num

/-- C4 amended (interior threshold rule): for a cell `(i, j)` with `i` in the
worker's range and `j < y / STEP`, after the worker's sampling loop (and
corner write) `grid[i][j]` is `1` if the truncated integer mean
`(red + green + blue) / 3` of the pixel at index `i * STEP * y + j * STEP`
is at most `SIGMA`, and `0` otherwise. -/
theorem interior_threshold_rule (scaled_image : ppm_image) (P thread_id : Nat) (grid : Grid)
    (i j : Nat)
    (hlo : range_start (scaled_image.x / STEP) P thread_id ≤ i)
    (hhi : i < range_end (scaled_image.x / STEP) P thread_id)
    (hj : j < scaled_image.y / STEP) :
    f_sample_grid scaled_image P thread_id grid i j =
      if ((scaled_image.data (i * STEP * scaled_image.y + j * STEP)).red.val +
          (scaled_image.data (i * STEP * scaled_image.y + j * STEP)).green.val +
          (scaled_image.data (i * STEP * scaled_image.y + j * STEP)).blue.val) / 3 ≤ SIGMA
      then 1 else 0 := by
  unfold f_sample_grid
  simp only [sample_rows_closed]
  have hcell : sampledRows scaled_image (range_start (scaled_image.x / STEP) P thread_id)
      (range_end (scaled_image.x / STEP) P thread_id) grid i j =
      threshold_bit (scaled_image.data (i * STEP * scaled_image.y + j * STEP)) := by
    unfold sampledRows
    rw [if_pos ⟨hlo, hhi, hj⟩]
  have hthr : threshold_bit (scaled_image.data (i * STEP * scaled_image.y + j * STEP)) =
      if ((scaled_image.data (i * STEP * scaled_image.y + j * STEP)).red.val +
          (scaled_image.data (i * STEP * scaled_image.y + j * STEP)).green.val +
          (scaled_image.data (i * STEP * scaled_image.y + j * STEP)).blue.val) / 3 ≤ SIGMA
      then 1 else 0 := by
    unfold threshold_bit
    rw [curr_color_eq]
    split <;> split <;> omega
  split
  · unfold Grid.set
    rw [if_neg (by omega), hcell, hthr]
  · rw [hcell, hthr]

/-- Witness for C4 amended: the single worker on the 8 x 8 image of pixels
`(200, 200, 202)`, cell `(0, 0)`, starting from the zero grid. -/
theorem interior_threshold_rule_witness :
    f_sample_grid (meanImage 8 8) 1 0 zeroGrid 0 0 =
      if (((meanImage 8 8).data (0 * STEP * (meanImage 8 8).y + 0 * STEP)).red.val +
          ((meanImage 8 8).data (0 * STEP * (meanImage 8 8).y + 0 * STEP)).green.val +
          ((meanImage 8 8).data (0 * STEP * (meanImage 8 8).y + 0 * STEP)).blue.val) / 3
          ≤ SIGMA
      then 1 else 0 :=
  interior_threshold_rule (meanImage 8 8) 1 0 zeroGrid 0 0 (by decide) (by decide) (by decide)

/-- C5 (boundary sentinel), evaluated on the code: for the all-black image
with `x = 16` and `y = 9` (so `p = 2 > q = 1`) and one worker, the fix-up
iteration `i = 1` assigns `grid[p][1]`, which is the corner cell, and grid
construction ends with `grid[2][1] = 1`; both pixels that iteration reads
(indices 87 and 143) are inside the buffer of 144 pixels. -/
theorem corner_overwritten_by_fixup :
    grid_construction (blackImage 16 9) 1 zeroGrid (16 / STEP) (9 / STEP) = 1 ∧
    f_sample_grid (blackImage 16 9) 1 0 zeroGrid (16 / STEP) (9 / STEP) = 0 ∧
    fixup_step (blackImage 16 9) 1 zeroGrid (16 / STEP) (9 / STEP) = 1 ∧
    1 * STEP * 9 + 16 - 1 = 87 ∧ (16 - 1) * 9 + 1 * STEP = 143 ∧ 143 < 16 * 9 := by
  decide

/-- C6 (tile copy): for a `STEP x STEP` tile and an offset with
`x + STEP ≤ image.x` and `y + STEP ≤ image.y`, `update_image` leaves the
dimensions alone, makes the image pixel at `(x + a, y + b)` equal to the tile
pixel at `(a, b)` for all `a, b < STEP` (an index inside the buffer), and
leaves every image pixel outside rows `[x, x + STEP)` and columns
`[y, y + STEP)` unchanged. -/
theorem update_image_tile_copy (image tile : ppm_image) (x y : Nat)
    (htx : tile.x = STEP) (hty : tile.y = STEP)
    (hx : x + STEP ≤ image.x) (hy : y + STEP ≤ image.y) :
    (update_image image tile x y).x = image.x ∧
    (update_image image tile x y).y = image.y ∧
    (∀ a b, a < STEP → b < STEP →
      (update_image image tile x y).data ((x + a) * image.y + (y + b)) =
        tile.data (a * STEP + b) ∧
      (x + a) * image.y + (y + b) < image.x * image.y) ∧
    (∀ r c, r < image.x → c < image.y →
      ¬ (x ≤ r ∧ r < x + STEP ∧ y ≤ c ∧ c < y + STEP) →
      (update_image image tile x y).data (r * image.y + c) = image.data (r * image.y + c)) := by
  rw [update_image_closed image tile x y (by omega)]
  refine ⟨rfl, rfl, ?_, ?_⟩
  · intro a b ha hb
    refine ⟨?_, pixel_index_lt _ _ _ _ (by omega) (by omega)⟩
    have hd := index_div (x + a) (y + b) image.y (by omega)
    have hm := index_mod (x + a) (y + b) image.y (by omega)
    simp only [rowsCopied, hd, hm]
    have e1 : x + a - x = a := by omega
    have e2 : y + b - y = b := by omega
    rw [if_pos (by omega), htx, e1, e2, Nat.mul_comm STEP a]
  · intro r c _ hc hout
    have hd := index_div r c image.y hc
    have hm := index_mod r c image.y hc
    simp only [rowsCopied, hd, hm]
    rw [if_neg (by omega)]

/-- Witness for C6: a black tile copied at offset `(8, 8)` of the white
16 x 16 image. -/
theorem update_image_tile_copy_witness :
    (update_image (whiteImage 16 16) (blackImage STEP STEP) 8 8).data
        ((8 + 7) * (whiteImage 16 16).y + (8 + 7)) = (blackImage STEP STEP).data (7 * STEP + 7) ∧
    (update_image (whiteImage 16 16) (blackImage STEP STEP) 8 8).data
        (7 * (whiteImage 16 16).y + 8) = (whiteImage 16 16).data (7 * (whiteImage 16 16).y + 8) :=
  ⟨((update_image_tile_copy (whiteImage 16 16) (blackImage STEP STEP) 8 8 rfl rfl
      (by decide) (by decide)).2.2.1 7 7 (by decide) (by decide)).1,
   (update_image_tile_copy (whiteImage 16 16) (blackImage STEP STEP) 8 8 rfl rfl
      (by decide) (by decide)).2.2.2 7 8 (by decide) (by decide) (by decide)⟩

/-- C7 (end-to-end scenario), evaluated on the code: on the all-white 16 x 16
image with 49 workers, `49 * ((double)2 / 49)` is rounded below `2`, no
worker's range contains grid row `1`, the cells `grid[1][0]`, `grid[1][1]`,
`grid[1][2]` and `grid[2][1]` keep the content the grid had before (here `1`),
and the march phase leaves the image pixels of rows `8 .. 15` white instead of
copying tile `0` (here black) there; with one worker all of this is done. -/
theorem white_image_row_skipped :
    (List.range 49).all (fun t => decide
      (¬ (range_start 2 49 t ≤ 1 ∧ 1 < range_end 2 49 t))) = true ∧
    range_end 2 49 48 = 1 ∧
    grid_construction (whiteImage 16 16) 49 oneGrid 1 0 = 1 ∧
    grid_construction (whiteImage 16 16) 49 oneGrid 1 1 = 1 ∧
    grid_construction (whiteImage 16 16) 49 oneGrid 1 2 = 1 ∧
    grid_construction (whiteImage 16 16) 49 oneGrid 2 1 = 1 ∧
    grid_construction (whiteImage 16 16) 1 oneGrid 1 0 = 0 ∧
    (march blackTiles zeroGrid 49 (whiteImage 16 16)).data (8 * 16 + 0) = white ∧
    (march blackTiles zeroGrid 49 (whiteImage 16 16)).data (15 * 16 + 15) = white ∧
    (march blackTiles zeroGrid 1 (whiteImage 16 16)).data (8 * 16 + 0) = black := by
  decide

/-- C8 (resample decision): when the source image has `x ≤ 2048` and
`y ≤ 2048`, `main` makes it the scaled image and sets `ok = 1`, and every
worker starts with the sampling loop, running neither the resize loop nor its
barrier (four barrier waits in all); otherwise the scaled image is
2048 x 2048, `ok = 0`, and every worker starts with the resize loop followed
by a barrier wait. -/
theorem resample_decision (image : ppm_image) (fresh : Nat → ppm_pixel) :
    (image.x ≤ 2048 ∧ image.y ≤ 2048 →
      (main_scaled_image image fresh).1 = image ∧
      (main_scaled_image image fresh).2 = 1 ∧
      ∀ thread_id,
        Step.rescale_loop ∉ f_steps (main_scaled_image image fresh).2 thread_id ∧
        (f_steps (main_scaled_image image fresh).2 thread_id).head? = some Step.sample_loop ∧
        (f_steps (main_scaled_image image fresh).2 thread_id).count Step.barrier_wait = 4) ∧
    (¬ (image.x ≤ 2048 ∧ image.y ≤ 2048) →
      (main_scaled_image image fresh).1.x = 2048 ∧
      (main_scaled_image image fresh).1.y = 2048 ∧
      (main_scaled_image image fresh).2 = 0 ∧
      ∀ thread_id,
        (f_steps (main_scaled_image image fresh).2 thread_id).take 2 =
          [Step.rescale_loop, Step.barrier_wait] ∧
        (f_steps (main_scaled_image image fresh).2 thread_id).count Step.rescale_loop = 1) := by
  constructor
  · intro h
    have hm : main_scaled_image image fresh = (image, 1) := by
      unfold main_scaled_image RESCALE_X RESCALE_Y
      rw [if_pos h]
    rw [hm]
    refine ⟨rfl, rfl, ?_⟩
    intro thread_id
    dsimp only
    by_cases ht : thread_id = 0
    · subst ht
      decide
    · simp [f_steps, ht]
  · intro h
    have hm : main_scaled_image image fresh =
        ({ x := RESCALE_X, y := RESCALE_Y, data := fresh }, 0) := by
      unfold main_scaled_image
      rw [if_neg (by simpa [RESCALE_X, RESCALE_Y] using h)]
    rw [hm]
    refine ⟨rfl, rfl, rfl, ?_⟩
    intro thread_id
    dsimp only
    by_cases ht : thread_id = 0
    · subst ht
      decide
    · simp [f_steps, ht]

/-- Witness for C8: a 16 x 16 source image is kept, a 4096 x 16 one is
replaced by a 2048 x 2048 buffer. -/
theorem resample_decision_witness :
    ((main_scaled_image (whiteImage 16 16) (fun _ => black)).1.x = 16 ∧
      (main_scaled_image (whiteImage 16 16) (fun _ => black)).2 = 1) ∧
    ((main_scaled_image (whiteImage 4096 16) (fun _ => black)).1.x = 2048 ∧
      (main_scaled_image (whiteImage 4096 16) (fun _ => black)).2 = 0) :=
  ⟨⟨congrArg ppm_image.x
      ((resample_decision (whiteImage 16 16) (fun _ => black)).1 (by decide)).1,
    ((resample_decision (whiteImage 16 16) (fun _ => black)).1 (by decide)).2.1⟩,
   ⟨((resample_decision (whiteImage 4096 16) (fun _ => black)).2 (by decide)).1,
    ((resample_decision (whiteImage 4096 16) (fun _ => black)).2 (by decide)).2.2.1⟩⟩

/-- C9 (boundary fix-up), evaluated on the code: on the image with `x = 8`
and `y = 16` (so `p = 1`, `q = 2`) whose only dark pixels are those at
indices 7 (row 0, column 7) and 120 (last row, column 8), one worker sets
`grid[0][q]` from the pixel at index `0 * STEP * y + x - 1 = 7` and gets `1`,
while the pixel of row 0 in the last column (index 15) is white and the rule
gives `0`; and `grid[p][1]` is assigned by no iteration, so it keeps its
previous content (`0` here) while the rule applied to the pixel of the last
row at column `1 * STEP` gives `1`. -/
theorem fixup_wrong_on_non_square_image :
    grid_construction fixupImage 1 zeroGrid 0 (16 / STEP) = 1 ∧
    threshold_bit (fixupImage.data (0 * STEP * 16 + (16 - 1))) = 0 ∧
    0 * STEP * fixupImage.y + fixupImage.x - 1 = 7 ∧
    grid_construction fixupImage 1 zeroGrid (8 / STEP) 1 = 0 ∧
    grid_construction fixupImage 1 oneGrid (8 / STEP) 1 = 1 ∧
    threshold_bit (fixupImage.data ((8 - 1) * 16 + 1 * STEP)) = 1 := by
  decide

/-- C10 (write-once grid), evaluated on the code: with one worker, the image
with `x = 16`, `y = 9` has its corner cell `grid[2][1]` assigned twice (by the
corner write and by the fix-up loop), and the image with `x = 8`, `y = 16`
has its last-row cell `grid[1][1]` assigned by nobody; on the 120 x 120 image
with 11 workers the cell `grid[14][0]` is assigned by nobody. -/
theorem grid_cells_not_written_once :
    write_count (blackImage 16 9) 1 (16 / STEP) (9 / STEP) = 2 ∧
    grid_writes (blackImage 16 9) 1 =
      [(0, 0, 0), (0, 1, 0), (0, 2, 1), (0, 0, 1), (0, 2, 0), (0, 1, 1), (0, 2, 1)] ∧
    write_count (blackImage 8 16) 1 (8 / STEP) 1 = 0 ∧
    grid_writes (blackImage 8 16) 1 = [(0, 0, 0), (0, 0, 1), (0, 1, 2), (0, 0, 2), (0, 1, 0)] ∧
    write_count (blackImage 120 120) 11 14 0 = 0 := by
  decide

/-- C13 (missing arguments), evaluated on the code: with `argc = 3` (input
and output path given, worker count omitted) `main` passes the test
`argc < 3`, reads the input image and the contour tiles and then calls
`atoi(argv[3])` on the null pointer that ends `argv`; it returns 1 at once
only for `argc < 3`. -/
theorem main_reads_files_without_worker_count :
    main_start 3 =
      [MainStep.read_ppm_input, MainStep.init_contour_map, MainStep.atoi_argv3 false] ∧
    MainStep.usage_return 1 ∉ main_start 3 ∧
    main_start 2 = [MainStep.usage_return 1] ∧
    main_start 1 = [MainStep.usage_return 1] ∧
    main_start 4 =
      [MainStep.read_ppm_input, MainStep.init_contour_map, MainStep.atoi_argv3 true] := by
  decide

/-- C15 (barrier count): whatever the thread id, a worker performs exactly
four barrier waits when `ok = 1` and exactly five when `ok = 0`; the step
sequence does not depend on the image. -/
theorem barrier_count (thread_id : Nat) :
    (f_steps 1 thread_id).count Step.barrier_wait = 4 ∧
    (f_steps 0 thread_id).count Step.barrier_wait = 5 := by
  by_cases ht : thread_id = 0
  · subst ht
    decide
  · simp [f_steps, ht]

/-- C16 as stated fails: in the steps of thread 0 with `ok = 1` the barrier
wait of line 169 lies between the sampling loop and the fix-up loop. -/
theorem barrier_between_sampling_and_fixup :
    Step.barrier_wait ∈
      steps_between Step.sample_loop Step.fixup_loop (f_steps 1 0) ∧
    steps_between Step.sample_loop Step.fixup_loop (f_steps 1 0) =
      [Step.corner_write, Step.barrier_wait] ∧
    steps_between Step.sample_loop Step.fixup_loop (f_steps 0 1) = [Step.barrier_wait] := by
  decide

/-- C16 amended (phase separation): in every worker's sequence of steps
there is exactly one barrier wait between its sampling loop and its fix-up
loop, so the two sub-phases run in consecutive barrier epochs, and nothing
but the corner write of thread 0 stands between the sampling loop and that
barrier. -/
theorem one_barrier_between_sampling_and_fixup (ok thread_id : Nat) :
    (steps_between Step.sample_loop Step.fixup_loop (f_steps ok thread_id)).count
        Step.barrier_wait = 1 ∧
    steps_between Step.sample_loop Step.fixup_loop (f_steps ok thread_id) =
      (if thread_id = 0 then [Step.corner_write] else []) ++ [Step.barrier_wait] := by
  by_cases hok : ok = 0 <;> by_cases ht : thread_id = 0
  · subst hok; subst ht; decide
  · subst hok
    simp [f_steps, steps_between, ht]
  · subst ht
    simp [f_steps, steps_between, hok]
  · simp [f_steps, steps_between, hok, ht]

/-- C17 (parallel march equals sequential march), evaluated on the code: on
the white image with `x = 120`, `y = 8` (15 grid rows), the zero grid and
black `STEP x STEP` tiles, one worker stamps the block of grid row 14 (the
pixel at index `112 * 8` becomes black) while with 11 workers no range
contains row 14 and the pixel stays white; likewise for the 8 x 8 image with
49 workers. -/
theorem march_differs_between_worker_counts :
    (march blackTiles zeroGrid 1 (whiteImage 120 8)).data (112 * 8) = black ∧
    (march blackTiles zeroGrid 11 (whiteImage 120 8)).data (112 * 8) = white ∧
    (List.range 11).all (fun t => decide
      (¬ (range_start (120 / STEP) 11 t ≤ 14 ∧ 14 < range_end (120 / STEP) 11 t))) = true ∧
    (march blackTiles zeroGrid 1 (whiteImage 8 8)).data 0 = black ∧
    (march blackTiles zeroGrid 49 (whiteImage 8 8)).data 0 = white := by
  decide

/-- C18 (fix-up read safety), evaluated on the code: for the image with
`x = 16`, `y = 8` and `i = 1 < x / STEP`, an iteration the single worker of
`P = 1` runs, the second index read by the fix-up loop is
`(x - 1) * y + i * STEP = 128 = x * y`, outside the buffer; for `x = 16`,
`y = 1` the first index `i * STEP * y + x - 1 = 23` is outside as well. -/
theorem fixup_reads_outside_image :
    1 < (blackImage 16 8).x / STEP ∧
    range_start ((blackImage 16 8).x / STEP) 1 0 ≤ 1 ∧
    1 < range_end ((blackImage 16 8).x / STEP) 1 0 ∧
    fixup_pixel_index_j (blackImage 16 8) 1 = 128 ∧
    (blackImage 16 8).x * (blackImage 16 8).y = 128 ∧
    fixup_pixel_index (blackImage 16 8) 1 = 79 ∧
    fixup_pixel_index (blackImage 16 1) 1 = 23 ∧
    (blackImage 16 1).x * (blackImage 16 1).y = 16 := by
  decide

/-- C20 (sampling and march pixel safety): for a cell `(i, j)` with
`i < x / STEP` and `j < y / STEP` and a `STEP x STEP` tile, the index
`i * STEP * y + j * STEP` read by the sampling loop is below `x * y`, every
index `(i * STEP + a) * y + j * STEP + b` with `a, b < STEP` written by
`update_image` at offset `(i * STEP, j * STEP)` is below `x * y`, these are
all the indices `update_image` writes, and every tile index `a * STEP + b` it
reads is below the tile size `STEP * STEP`. -/
theorem sampling_and_march_indices_in_bounds (scaled_image tile : ppm_image) (i j : Nat)
    (htx : tile.x = STEP) (hty : tile.y = STEP)
    (hi : i < scaled_image.x / STEP) (hj : j < scaled_image.y / STEP) :
    sample_pixel_index scaled_image i j = i * STEP * scaled_image.y + j * STEP ∧
    sample_pixel_index scaled_image i j < scaled_image.x * scaled_image.y ∧
    (∀ a b, a < STEP → b < STEP →
      image_pixel_index scaled_image (i * STEP) (j * STEP) a b =
        (i * STEP + a) * scaled_image.y + j * STEP + b ∧
      image_pixel_index scaled_image (i * STEP) (j * STEP) a b <
        scaled_image.x * scaled_image.y ∧
      contour_pixel_index tile a b = a * STEP + b ∧
      contour_pixel_index tile a b < tile.x * tile.y) ∧
    (∀ n, n ∈ update_image_writes scaled_image tile (i * STEP) (j * STEP) →
      n < scaled_image.x * scaled_image.y) := by
  have hx8 : i * STEP + STEP ≤ scaled_image.x := by
    simp only [STEP] at hi ⊢
    omega
  have hy8 : j * STEP + STEP ≤ scaled_image.y := by
    simp only [STEP] at hj ⊢
    omega
  have hS : 0 < STEP := by decide
  have hwrite : ∀ a b, a < STEP → b < STEP →
      image_pixel_index scaled_image (i * STEP) (j * STEP) a b <
        scaled_image.x * scaled_image.y := by
    intro a b ha hb
    unfold image_pixel_index
    rw [Nat.add_assoc]
    exact pixel_index_lt _ _ _ _ (by omega) (by omega)
  refine ⟨rfl, ?_, ?_, ?_⟩
  · unfold sample_pixel_index
    exact pixel_index_lt _ _ _ _ (by omega) (by omega)
  · intro a b ha hb
    refine ⟨rfl, hwrite a b ha hb, ?_, ?_⟩
    · unfold contour_pixel_index
      rw [htx, Nat.mul_comm STEP a]
    · unfold contour_pixel_index
      rw [htx, hty, Nat.mul_comm STEP a]
      exact pixel_index_lt _ _ _ _ ha hb
  · intro n hn
    rw [mem_update_image_writes] at hn
    obtain ⟨a, ha, b, hb, rfl⟩ := hn
    exact hwrite a b (htx ▸ ha) (hty ▸ hb)

/-- Witness for C20: the cell `(1, 1)` of a 16 x 16 image with a black tile. -/
theorem sampling_and_march_indices_in_bounds_witness :
    sample_pixel_index (whiteImage 16 16) 1 1 <
      (whiteImage 16 16).x * (whiteImage 16 16).y :=
  (sampling_and_march_indices_in_bounds (whiteImage 16 16) (blackImage STEP STEP) 1 1
    rfl rfl (by decide) (by decide)).2.1

/-- C19 (grid index safety): for a scaled image with `x ≤ 2048` and
`y ≤ 2048` and any worker count and thread id, every grid cell the worker
writes in the sampling loop, the corner write and the fix-up loop, or reads
in the march loop, has row at most 256 and column at most 256, inside the
257 x 257 grid allocated by `main`. -/
theorem grid_indices_in_bounds (scaled_image : ppm_image) (P thread_id : Nat)
    (hx : scaled_image.x ≤ 2048) (hy : scaled_image.y ≤ 2048) (c : Nat × Nat)
    (hc : c ∈ f_grid_accesses scaled_image P thread_id) :
    c.1 ≤ 256 ∧ c.2 ≤ 256 := by
  have hp : scaled_image.x / STEP ≤ 256 := by
    simp only [STEP]
    omega
  have hq : scaled_image.y / STEP ≤ 256 := by
    simp only [STEP]
    omega
  have hend := range_end_le (scaled_image.x / STEP) P thread_id
  unfold f_grid_accesses at hc
  rw [List.mem_append, List.mem_append, mem_f_sample_grid_writes, mem_f_fixup_writes,
    mem_f_march_grid_reads] at hc
  rcases hc with ((⟨i, _, h2, j, h3, rfl⟩ | ⟨_, rfl⟩) | ⟨i, _, h2, (rfl | rfl)⟩) |
    ⟨i, _, h2, j, h3, (rfl | rfl | rfl | rfl)⟩ <;>
  constructor <;> simp only <;> omega

/-- Witness for C19: the corner cell written by thread 0 on a 2048 x 2048
image. -/
theorem grid_indices_in_bounds_witness :
    ((2048 / STEP, 2048 / STEP) : Nat × Nat).1 ≤ 256 ∧
      ((2048 / STEP, 2048 / STEP) : Nat × Nat).2 ≤ 256 :=
  grid_indices_in_bounds (whiteImage 2048 2048) 4 0 (by decide) (by decide)
    (2048 / STEP, 2048 / STEP)
    (by
      unfold f_grid_accesses
      rw [List.mem_append, List.mem_append, mem_f_sample_grid_writes]
      exact Or.inl (Or.inl (Or.inr ⟨rfl, rfl⟩)))

/-- Independence of the schedule: for a fixed image, a fixed initial content
of the grid buffer, a tile library of `STEP x STEP` tiles and a worker count
`P`, two runs whose workers do their work in different orders inside the
sampling, fix-up and march epochs (each schedule a permutation of the thread
ids `0 .. P - 1`) end with the same image. -/
theorem output_independent_of_schedule (contour_map : Nat → ppm_image)
    (scaled_image : ppm_image) (grid : Grid) (P : Nat)
    (htile : ∀ k, (contour_map k).x = STEP ∧ (contour_map k).y = STEP)
    (s1 s2 s3 r1 r2 r3 : List Nat)
    (hs1 : s1.Perm (List.range P)) (hs2 : s2.Perm (List.range P))
    (hs3 : s3.Perm (List.range P))
    (hr1 : r1.Perm (List.range P)) (hr2 : r2.Perm (List.range P))
    (hr3 : r3.Perm (List.range P)) :
    run_pipeline contour_map scaled_image grid P s1 s2 s3 =
      run_pipeline contour_map scaled_image grid P r1 r2 r3 := by
  unfold run_pipeline
  simp only
  have e1 : run_epoch s1 (f_sample_grid scaled_image P) grid =
      run_epoch r1 (f_sample_grid scaled_image P) grid :=
    run_epoch_perm _ _ _ _ (hs1.trans hr1.symm)
      (fun t t' z => f_sample_grid_comm scaled_image P t t' z)
  have e2 : ∀ g, run_epoch s2 (f_fixup scaled_image P) g =
      run_epoch r2 (f_fixup scaled_image P) g := fun g =>
    run_epoch_perm _ _ _ _ (hs2.trans hr2.symm)
      (fun t t' z => f_fixup_comm scaled_image P t t' z)
  have e3 : ∀ g, run_epoch s3 (f_march contour_map g P) scaled_image =
      run_epoch r3 (f_march contour_map g P) scaled_image := fun g =>
    run_epoch_perm _ _ _ _ (hs3.trans hr3.symm)
      (fun t t' z => f_march_comm contour_map g P t t' z htile)
  rw [e1, e2, e3]

/-- An instance of the independence of the schedule: two workers on the 16 x 16 white image, run in the
orders 0, 1 and 1, 0. -/
theorem output_independent_of_schedule_witness :
    run_pipeline blackTiles (whiteImage 16 16) oneGrid 2 [0, 1] [0, 1] [0, 1] =
      run_pipeline blackTiles (whiteImage 16 16) oneGrid 2 [1, 0] [1, 0] [1, 0] :=
  output_independent_of_schedule blackTiles (whiteImage 16 16) oneGrid 2
    (fun _ => ⟨rfl, rfl⟩) [0, 1] [0, 1] [0, 1] [1, 0] [1, 0] [1, 0]
    (List.Perm.refl _) (List.Perm.refl _) (List.Perm.refl _)
    (List.Perm.swap 0 1 []) (List.Perm.swap 0 1 []) (List.Perm.swap 0 1 [])

/-- C14 (output determinism), evaluated on the code: on the all-black image
with `x = 8`, `y = 16` and one worker, the cell `grid[1][1]` is assigned by
nobody during grid construction and read by the march loop, so the final
image depends on the content the grid buffer had before the run: from a
zero-filled buffer the block of cell `(0, 0)` receives tile 13, from a buffer
filled with ones it receives tile 15.  Likewise on the all-black 120 x 120
image with 11 workers the cell `grid[14][0]` keeps the previous content of
the buffer and is read by the march loop of worker 10. -/
theorem output_depends_on_grid_memory :
    write_count (blackImage 8 16) 1 1 1 = 0 ∧
    (1, 1) ∈ f_march_grid_reads (blackImage 8 16) 1 0 ∧
    (run_pipeline codeTiles (blackImage 8 16) zeroGrid 1 [0] [0] [0]).data 0 =
      (codeTiles 13).data 0 ∧
    (run_pipeline codeTiles (blackImage 8 16) oneGrid 1 [0] [0] [0]).data 0 =
      (codeTiles 15).data 0 ∧
    (codeTiles 13).data 0 ≠ (codeTiles 15).data 0 ∧
    grid_construction (blackImage 120 120) 11 zeroGrid 14 0 = 0 ∧
    grid_construction (blackImage 120 120) 11 oneGrid 14 0 = 1 ∧
    (14, 0) ∈ f_march_grid_reads (blackImage 120 120) 11 10 := by
  decide

end MarchingSquares
